import Mathlib

/-!
Verification of the rule-matching, collision-resolution and transactional-undo
core of the `downloads_organize` CLI (`downloads_organize/cli.py`).

The Python source is shallowly embedded:

* paths are kept as the list of parent components plus the final name, which is
  exactly the granularity at which the Python code manipulates them
  (`path.parent`, `path.name`, `path.with_name`, `/`-joins);
* the filesystem visible to `Path.exists` during planning is a finite set of
  paths; the executor's `shutil.move` failure modes are an oracle parameter;
* Python string operations (`lower`, `strip`, `endswith`, `split`,
  `str.join`, slicing) are re-implemented over `List Char` with the same
  semantics, so that every definition is executable;
* `f"{base} ({index}){suffix}"` renders the index with `Nat.repr`, the decimal
  rendering used by Python's `str` on non-negative integers;
* Python's stable sorts (`list.sort`, `sorted`) are modelled by insertion
  sort, which is stable for the same total preorders.
-/

set_option maxHeartbeats 1000000

namespace FolderTidy

/-! ## Python string primitives -/

/-- Python `str.lower()`; `Char.toLower` applies the same ASCII case map that
Python applies to all characters appearing in this development. -/
def lowerStr (s : String) : String := ⟨s.data.map Char.toLower⟩

/-- Python `str.endswith(t)`. -/
def endsWithStr (s t : String) : Bool :=
  decide (t.data.length ≤ s.data.length) &&
    s.data.drop (s.data.length - t.data.length) == t.data

/-- Python `str.startswith(t)`. -/
def startsWithStr (s t : String) : Bool :=
  s.data.take t.data.length == t.data

/-- Python `str.strip()` (whitespace on both ends). -/
def trimStr (s : String) : String :=
  ⟨((s.data.dropWhile Char.isWhitespace).reverse.dropWhile Char.isWhitespace).reverse⟩

/-- Python `str.split(sep)` for a single-character separator; empty parts are
kept, and splitting the empty string yields one empty part. -/
def splitChar (sep : Char) : List Char → List (List Char)
  | [] => [[]]
  | c :: rest =>
    match splitChar sep rest with
    | [] => if c = sep then [[], []] else [[c]]
    | p :: ps => if c = sep then [] :: p :: ps else (c :: p) :: ps

/-- Python `"".join(parts)`. -/
def joinStr (l : List String) : String := ⟨(l.map String.data).flatten⟩

/-- Code-point lexicographic `<` on character lists, as Python compares
strings. -/
def charsLt : List Char → List Char → Bool
  | _, [] => false
  | [], _ :: _ => true
  | a :: as, b :: bs =>
    if a.toNat < b.toNat then true
    else if a.toNat = b.toNat then charsLt as bs
    else false

/-- Python `sub in s` (substring containment). -/
def containsSub (s t : String) : Bool :=
  (List.range (s.data.length + 1)).any
    (fun i => (s.data.drop i).take t.data.length == t.data)

/-! ## Paths -/

/-- A filesystem path: parent components plus final name, mirroring the only
path operations the source performs (`parent`, `name`, `with_name`, joins). -/
structure FsPath where
  dir : List String
  name : String
deriving DecidableEq

/-! ## `pathlib` suffix computations -/

/-- Python `PurePath(name).suffixes`: empty when the name ends with a dot,
otherwise one `".ext"` entry per dot after stripping leading dots. -/
def pythonSuffixes (name : String) : List String :=
  if endsWithStr name "." then []
  else
    match splitChar '.' (name.data.dropWhile (fun c => c = '.')) with
    | [] => []
    | _ :: rest => rest.map (fun part => (⟨'.' :: part⟩ : String))

/-- Python `PurePath(name).suffix` (via `name.rfind('.')`). -/
def pythonSuffix (name : String) : String :=
  let cs := name.data
  match cs.reverse.findIdx? (fun c => c = '.') with
  | none => ""
  | some rj =>
    let i := cs.length - 1 - rj
    if 0 < i ∧ i < cs.length - 1 then ⟨cs.drop i⟩ else ""

/-- `split_base_and_suffix` from the source: suffix is the join of all
`pathlib` suffixes, the base is the name with that suffix sliced off. -/
def split_base_and_suffix (filename : String) : String × String :=
  let suffix := joinStr (pythonSuffixes filename)
  let base :=
    if suffix ≠ "" ∧ endsWithStr (lowerStr filename) (lowerStr suffix) then
      (⟨filename.data.take (filename.data.length - suffix.data.length)⟩ : String)
    else filename
  if base = "" then (filename, "") else (base, suffix)

/-! ## Extension normalization and matching -/

/-- `normalize_extension` from the source; `none` models the `ValueError`
raised on an extension that is empty after stripping. -/
def normalize_extension (raw : String) : Option String :=
  let ext := lowerStr (trimStr raw)
  if ext = "" then none
  else if startsWithStr ext "." then some ext
  else some ("." ++ ext)

/-- One step of the `best_match` accumulator loop of `matches_extension`: keep
the longest normalized extension that the lowered name ends with.  An empty
extension, which would raise `ValueError` in Python and abort the whole run,
is modelled as not matching; no claim involves empty extension strings. -/
def bestExtStep (lowerName : String) (best : Option String) (ext : String) : Option String :=
  match normalize_extension ext with
  | none => best
  | some normalized =>
    if endsWithStr lowerName normalized then
      match best with
      | none => some normalized
      | some b =>
        if b.data.length < normalized.data.length then some normalized else best
    else best

/-- The final `best_match` value of `matches_extension`. -/
def bestExtMatch (lowerName : String) (extensions : List String) : Option String :=
  extensions.foldl (bestExtStep lowerName) none

/-- `matches_extension` from the source: the name matches when a best match
exists (the function returns only this boolean). -/
def matches_extension (filename : String) (extensions : List String) : Bool :=
  (bestExtMatch (lowerStr filename) extensions).isSome

/-! ## Collision resolution -/

/-- The candidate name `f"{base} ({index}){suffix}"` tried by
`resolve_collision`. -/
def collisionName (base suffix : String) (index : Nat) : String :=
  base ++ " (" ++ Nat.repr index ++ ")" ++ suffix

/-- The `while True` search of `resolve_collision`, with explicit fuel.
`collisionFuel` is provably always enough (`resolveCollisionLoop_isSome`), so
the `none` case is unreachable and the loop models the unbounded search. -/
def resolveCollisionLoop (fs occupied : Finset FsPath) (dir : List String)
    (base suffix : String) : Nat → Nat → Option FsPath
  | 0, _ => none
  | fuel + 1, index =>
    let candidate : FsPath := ⟨dir, collisionName base suffix index⟩
    if candidate ∉ fs ∧ candidate ∉ occupied then some candidate
    else resolveCollisionLoop fs occupied dir base suffix fuel (index + 1)

/-- One more than the number of paths that could possibly be occupied. -/
def collisionFuel (fs occupied : Finset FsPath) : Nat := (fs ∪ occupied).card + 1

/-- `resolve_collision` from the source: `fs` is the set of paths for which
`Path.exists` answers true at resolution time, `occupied` the run-scoped
claimed set. -/
def resolve_collision (fs : Finset FsPath) (target : FsPath) (occupied : Finset FsPath) :
    FsPath × Bool :=
  if target ∉ fs ∧ target ∉ occupied then (target, false)
  else
    match resolveCollisionLoop fs occupied target.dir
        (split_base_and_suffix target.name).1 (split_base_and_suffix target.name).2
        (collisionFuel fs occupied) 1 with
    | some c => (c, true)
    | none => (target, true)

/-! ## Decimal digits (for injectivity of the collision index rendering) -/

/-- Decimal digit characters of `n`, most significant first. -/
def decDigits (n : Nat) : List Char :=
  if _h : n < 10 then [Nat.digitChar n]
  else decDigits (n / 10) ++ [Nat.digitChar (n % 10)]
termination_by n
decreasing_by exact Nat.div_lt_self (by omega) (by omega)

/-- Numeric value of a decimal digit character. -/
def digitVal (c : Char) : Nat := c.toNat - 48

/-- Value of a most-significant-first decimal digit string. -/
def digitsVal (l : List Char) : Nat := l.foldl (fun acc c => acc * 10 + digitVal c) 0

/-! ## Data model: conditions, rules, items

Condition tags are a closed enumeration (`normalize_identifier` on the tag is
the identity for every tag in this development); `unknown` models the
fail-safe branch for unrecognized tags. -/

inductive Condition where
  | extension_any (exts : List String)
  | name_contains (subs : List String)
  | kind (k : String)
  | created_within_days (days : Int)
  | size_gte (n : Int)
  | size_lte (n : Int)
  | is_folder (b : Bool)
  | is_alias (b : Bool)
  | has_tag (b : Bool)
  | unknown (tag : String)
deriving DecidableEq

structure Rule where
  rule_id : String
  description : String
  subfolder : String
  enabled : Bool
  built_in : Bool
  mode : String := "all"
  conditions : List Condition := []
deriving DecidableEq

/-- Per-entry metadata gathered by `build_item_info`; timestamps are seconds
since the epoch. -/
structure ItemInfo where
  path : FsPath
  relative_path : List String
  name : String
  is_dir : Bool
  is_symlink : Bool
  size_bytes : Int
  created_at : Int
  has_tag : Bool
deriving DecidableEq

def ItemInfo.lower_name (item : ItemInfo) : String := lowerStr item.name

/-- `match_kind` from the source; the kind-to-extension-set table
(`build_kind_extensions`) is passed as a lookup parameter. -/
def match_kind (item : ItemInfo) (kindValue : String)
    (kindMap : String → Option (List String)) : Bool :=
  if kindValue = "folder" then item.is_dir
  else if kindValue = "alias" ∨ kindValue = "symlink" then item.is_symlink
  else
    match kindMap kindValue with
    | none => false
    | some exts => !item.is_dir && matches_extension item.name exts

/-- `evaluate_condition` from the source.  For `extension_any` Python
normalizes each extension before calling `matches_extension`, which normalizes
again; normalization is idempotent, so the single normalization inside
`matches_extension` is equivalent.  One day is 86400 seconds. -/
def evaluate_condition (condition : Condition) (item : ItemInfo) (reference_time : Int)
    (kindMap : String → Option (List String)) : Bool :=
  match condition with
  | .extension_any exts => !item.is_dir && matches_extension item.name exts
  | .name_contains subs => subs.any (fun sub => containsSub item.lower_name (lowerStr sub))
  | .kind k => match_kind item k kindMap
  | .created_within_days days => decide (reference_time - days * 86400 ≤ item.created_at)
  | .size_gte n => decide (n ≤ item.size_bytes)
  | .size_lte n => decide (item.size_bytes ≤ n)
  | .is_folder b => item.is_dir == b
  | .is_alias b => item.is_symlink == b
  | .has_tag b => item.has_tag == b
  | .unknown _ => false

/-- `matches_rule` from the source. -/
def matches_rule (rule : Rule) (item : ItemInfo) (reference_time : Int)
    (kindMap : String → Option (List String)) : Bool :=
  if !rule.enabled then false
  else if rule.conditions.isEmpty then false
  else
    let results := rule.conditions.map
      (fun c => evaluate_condition c item reference_time kindMap)
    if rule.mode = "any" then results.any id else results.all id

/-! ## Priority optimizer

Scores are modelled as exact rationals; the Python code uses floats, but every
score compared by any claim (`120/1`, `120/4`, the fixed bonuses) is exactly
representable, and the sortedness/stability facts below hold for the score
function as a whole. -/

def condition_specificity_score (c : Condition) : ℚ :=
  match c with
  | .extension_any exts =>
    let normalized := exts.filterMap normalize_extension
    120 / (max 1 normalized.length : ℕ)
  | .name_contains subs =>
    let useful := (subs.map trimStr).filter (fun s => s ≠ "")
    70 + (min useful.length 5 : ℕ) * 4
  | .created_within_days _ => 45
  | .size_gte _ => 45
  | .size_lte _ => 45
  | .has_tag _ => 40
  | .is_alias _ => 40
  | .is_folder _ => 40
  | .kind _ => 35
  | .unknown _ => 0

def rule_specificity_score (r : Rule) : ℚ :=
  if !r.enabled then -1000000
  else
    (r.conditions.map condition_specificity_score).sum
      + (if r.mode = "all" then 12 else 0)
      + (if !r.built_in then 6 else 0)
      + (min r.conditions.length 5 : ℕ) * 3
      - (if r.rule_id = "mime_fallback" then 1000000 else 0)

/-- The sort key `(-score, original_index)` of `optimize_rule_priority`, as a
relation: `a` sorts (weakly) before `b`. -/
def scoreOrder (a b : Rule × ℚ × ℕ) : Prop :=
  b.2.1 < a.2.1 ∨ (a.2.1 = b.2.1 ∧ a.2.2 ≤ b.2.2)

instance : DecidableRel scoreOrder := fun a b => by
  unfold scoreOrder
  exact inferInstance

instance : IsTrans (Rule × ℚ × ℕ) scoreOrder := by
  constructor
  intro a b c hab hbc
  rcases hab with h1 | ⟨h1, h1i⟩ <;> rcases hbc with h2 | ⟨h2, h2i⟩
  · exact Or.inl (h2.trans h1)
  · exact Or.inl (h2 ▸ h1)
  · exact Or.inl (by rw [h1]; exact h2)
  · exact Or.inr ⟨h1.trans h2, h1i.trans h2i⟩

instance : IsTotal (Rule × ℚ × ℕ) scoreOrder := by
  constructor
  intro a b
  rcases lt_trichotomy a.2.1 b.2.1 with h | h | h
  · exact Or.inr (Or.inl h)
  · rcases Nat.le_total a.2.2 b.2.2 with hi | hi
    · exact Or.inl (Or.inr ⟨h, hi⟩)
    · exact Or.inr (Or.inr ⟨h.symm, hi⟩)
  · exact Or.inl (Or.inl h)

/-- The `enabled_scored` list of `optimize_rule_priority`: enabled rules with
score and original index, in catalog order. -/
def enabledScored (rules : List Rule) : List (Rule × ℚ × ℕ) :=
  (rules.enum.filter (fun p => p.2.enabled)).map
    (fun p => (p.2, rule_specificity_score p.2, p.1))

/-- The result of `enabled_scored.sort(key=lambda e: (-e[1], e[2]))`.  Python's
`list.sort` is a stable sort; since the key carries the (distinct) original
indices, the sorted result is the unique permutation sorted by `scoreOrder`,
here produced by insertion sort. -/
def sortedScored (rules : List Rule) : List (Rule × ℚ × ℕ) :=
  List.insertionSort scoreOrder (enabledScored rules)

structure PriorityOptimizationReport where
  enabled : Bool
  strategy : String
  changed : Bool
  before_order : List String
  after_order : List String
deriving DecidableEq

/-- `optimize_rule_priority` from the source (the per-rule score entries of the
report, which are purely informational and read by no claim, are omitted). -/
def optimize_rule_priority (rules : List Rule) : List Rule × PriorityOptimizationReport :=
  let optimizedEnabled := (sortedScored rules).map (fun e => e.1)
  let disabledInOrder := rules.filter (fun r => !r.enabled)
  let optimized := optimizedEnabled ++ disabledInOrder
  let before := rules.map (fun r => r.rule_id)
  let after := optimized.map (fun r => r.rule_id)
  (optimized,
    { enabled := true
      strategy := "specificity_v1"
      changed := before != after
      before_order := before
      after_order := after })

/-- Strict version of the sort order: strictly larger score first, equal
scores strictly by original index. -/
def strictScoreOrder (a b : Rule × ℚ × ℕ) : Prop :=
  b.2.1 < a.2.1 ∨ (a.2.1 = b.2.1 ∧ a.2.2 < b.2.2)

/-! ## Scanner -/

/-- `DEFAULT_IGNORE_EXTENSIONS` from the source (a Python `set`, modelled as a
list; only membership is ever consulted). -/
def DEFAULT_IGNORE_EXTENSIONS : List String :=
  [".crdownload", ".part", ".partial", ".download", ".opdownload", ".!qb", ".tmp"]

def BUNDLE_SUFFIXES : List String := [".app", ".bundle", ".framework", ".plugin"]

/-- The slice of the parsed configuration consumed by the embedded functions. -/
structure Config where
  ignore_extensions : List String := []
deriving DecidableEq

/-- `combine_ignore_extensions` from the source: defaults, plus configured
extensions (already normalized by `parse_config`), plus normalized CLI
extensions.  Python builds a `set`; a list with the same members is equivalent
because only membership is consulted.  A CLI extension that is empty raises
`ValueError` in Python; it is modelled as skipped, which no claim exercises. -/
def combine_ignore_extensions (config : Config) (cli_extensions : List String) : List String :=
  DEFAULT_IGNORE_EXTENSIONS ++ config.ignore_extensions
    ++ cli_extensions.filterMap normalize_extension

/-- What `os.lstat`/`iterdir` report for one directory entry. -/
structure RawEntry where
  path : FsPath
  is_dir : Bool
  is_symlink : Bool
  size : Int
  mtime : Int
  has_xattr_tag : Bool
deriving DecidableEq

/-- `build_item_info` from the source; `has_finder_tag` is only probed when
`include_tagged` is set. -/
def build_item_info (sourceDir : List String) (e : RawEntry) (is_dir : Bool)
    (include_tagged : Bool) : ItemInfo :=
  { path := e.path
    relative_path := (e.path.dir ++ [e.path.name]).drop sourceDir.length
    name := e.path.name
    is_dir := is_dir
    is_symlink := e.is_symlink
    size_bytes := if is_dir then 0 else e.size
    created_at := e.mtime
    has_tag := if include_tagged then e.has_xattr_tag else false }

/-- The scan-policy booleans threaded from `run_tidy` into the scanner. -/
structure ScanFlags where
  include_folders : Bool
  include_empty_folders : Bool
  ignore_aliases : Bool
  ignore_folders : Bool
  include_tagged : Bool
  ignore_tagged : Bool
  skip_bundles : Bool
deriving DecidableEq

/-- Ascending order on entries by lowercased name, the key of
`sorted(source_dir.iterdir(), key=lambda p: p.name.lower())`. -/
def entryLE (a b : RawEntry) : Prop :=
  charsLt (lowerStr b.path.name).data (lowerStr a.path.name).data = false

instance : DecidableRel entryLE := fun a b => by
  unfold entryLE
  exact inferInstance

/-- The per-entry body of the `include_subfolders=False` scan loop of
`iter_candidate_items`. -/
def scanStep (sourceDir : List String) (flags : ScanFlags) (ignore_extensions : List String)
    (shouldSkip : FsPath → Bool) (dirNonEmpty : FsPath → Bool)
    (acc : List ItemInfo × Nat) (e : RawEntry) : List ItemInfo × Nat :=
  if shouldSkip e.path then (acc.1, acc.2 + 1)
  else if e.is_dir then
    if flags.skip_bundles && decide (lowerStr (pythonSuffix e.path.name) ∈ BUNDLE_SUFFIXES)
    then (acc.1, acc.2 + 1)
    else if !flags.include_folders || flags.ignore_folders then (acc.1, acc.2 + 1)
    else if flags.include_empty_folders && dirNonEmpty e.path then (acc.1, acc.2 + 1)
    else
      let info := build_item_info sourceDir e true flags.include_tagged
      if flags.ignore_tagged && info.has_tag then (acc.1, acc.2 + 1)
      else (acc.1 ++ [info], acc.2)
  else
    let info := build_item_info sourceDir e false flags.include_tagged
    if flags.ignore_aliases && info.is_symlink then (acc.1, acc.2 + 1)
    else if flags.ignore_tagged && info.has_tag then (acc.1, acc.2 + 1)
    else if matches_extension info.name ignore_extensions then (acc.1, acc.2 + 1)
    else (acc.1 ++ [info], acc.2)

/-- `iter_candidate_items` from the source, single-directory branch
(`include_subfolders=False`); the recursive `os.walk` branch applies the
identical per-file filter chain.  `shouldSkip` models `should_skip_path`
(destination-subtree and ignore-path matching, which consult the OS path
resolver); `dirNonEmpty` models `any(dir_path.iterdir())`. -/
def iter_candidate_items (entries : List RawEntry) (sourceDir : List String)
    (flags : ScanFlags) (ignore_extensions : List String)
    (shouldSkip : FsPath → Bool) (dirNonEmpty : FsPath → Bool) :
    List ItemInfo × Nat :=
  (List.insertionSort entryLE entries).foldl
    (scanStep sourceDir flags ignore_extensions shouldSkip dirNonEmpty) ([], 0)

/-! ## Planner -/

structure MovePlan where
  source : FsPath
  destination : FsPath
  rule_id : String
  rule_description : String
  collision_renamed : Bool
deriving DecidableEq

structure TidySummary where
  scanned : Nat := 0
  ignored : Nat := 0
  total_targets : Nat := 0
  matched : Nat := 0
  unclassified : Nat := 0
  fallback_mime : Nat := 0
  rule_hits : List (String × Nat) := []
  planned_moves : Nat := 0
  moved : Nat := 0
  collisions : Nat := 0
  errors : Nat := 0
  rules_used : Nat := 0
deriving DecidableEq

/-- One `summary.rule_hits[id] = summary.rule_hits.get(id, 0) + 1` update on
the insertion-ordered dict. -/
def bumpHit (hits : List (String × Nat)) (k : String) : List (String × Nat) :=
  if hits.any (fun p => p.1 = k) then
    hits.map (fun p => if p.1 = k then (p.1, p.2 + 1) else p)
  else hits ++ [(k, 1)]

/-- The first enabled rule whose conditions match, i.e. the inner
`for rule in enabled_rules: ... break` loop of `plan_moves`. -/
def firstMatch (enabledRules : List Rule) (item : ItemInfo) (reference_time : Int)
    (kindMap : String → Option (List String)) : Option Rule :=
  enabledRules.find? (fun rule => matches_rule rule item reference_time kindMap)

/-- Sort key `(item.relative_path.as_posix().count("/"), item.lower_name)`;
components contain no slash, so the slash count is one less than the number of
components. -/
def planSortKey (item : ItemInfo) : ℕ × List Char :=
  (item.relative_path.length - 1, (ItemInfo.lower_name item).data)

/-- Descending, stable order for `candidates.sort(key=..., reverse=True)`:
`a` sorts before `b` when `key a ≥ key b` lexicographically. -/
def planOrder (a b : ItemInfo) : Prop :=
  (planSortKey b).1 < (planSortKey a).1
  ∨ ((planSortKey b).1 = (planSortKey a).1
      ∧ charsLt (planSortKey a).2 (planSortKey b).2 = false)

instance : DecidableRel planOrder := fun a b => by
  unfold planOrder
  exact inferInstance

structure PlanState where
  occupied : Finset FsPath
  plans : List MovePlan
  summary : TidySummary
  used_rules : Finset String

/-- The body of the `for item in candidates` loop of `plan_moves`. -/
def planStep (fs : Finset FsPath) (destinationDir : List String)
    (enabledRules : List Rule) (reference_time : Int)
    (kindMap : String → Option (List String)) (st : PlanState) (item : ItemInfo) :
    PlanState :=
  match firstMatch enabledRules item reference_time kindMap with
  | none =>
    { st with summary := { st.summary with unclassified := st.summary.unclassified + 1 } }
  | some matched_rule =>
    let target : FsPath :=
      ⟨destinationDir
        ++ (splitChar '/' matched_rule.subfolder.data).map (fun p => (⟨p⟩ : String)),
       item.name⟩
    let resolved := resolve_collision fs target st.occupied
    { occupied := insert resolved.1 st.occupied
      plans := st.plans ++
        [{ source := item.path
           destination := resolved.1
           rule_id := matched_rule.rule_id
           rule_description := matched_rule.description
           collision_renamed := resolved.2 }]
      summary :=
        { st.summary with
          matched := st.summary.matched + 1
          rule_hits := bumpHit st.summary.rule_hits matched_rule.rule_id
          fallback_mime := st.summary.fallback_mime
            + (if matched_rule.rule_id = "mime_fallback" then 1 else 0)
          collisions := st.summary.collisions + (if resolved.2 then 1 else 0) }
      used_rules := insert matched_rule.rule_id st.used_rules }

/-- `plan_moves` from the source: scan, sort candidates deepest-first, match
each against the enabled rules, resolve collisions against the run-scoped
claimed set, and recount the summary.  `fs` is the set of paths `Path.exists`
answers true for during planning (the planner never mutates the
filesystem). -/
def plan_moves (fs : Finset FsPath) (entries : List RawEntry)
    (sourceDir destinationDir : List String) (rules : List Rule)
    (flags : ScanFlags) (ignore_extensions : List String)
    (shouldSkip : FsPath → Bool) (dirNonEmpty : FsPath → Bool)
    (reference_time : Int) (kindMap : String → Option (List String)) :
    List MovePlan × TidySummary :=
  let scan := iter_candidate_items entries sourceDir flags ignore_extensions
    shouldSkip dirNonEmpty
  let s0 : TidySummary :=
    { ignored := scan.2, scanned := scan.1.length, total_targets := scan.1.length }
  let enabledRules := rules.filter (fun r => r.enabled)
  let final := (List.insertionSort planOrder scan.1).foldl
    (planStep fs destinationDir enabledRules reference_time kindMap)
    { occupied := ∅, plans := [], summary := s0, used_rules := ∅ }
  (final.plans,
   { final.summary with
     planned_moves := final.plans.length
     unclassified := final.summary.scanned - final.summary.matched
     rules_used := final.used_rules.card })

/-- Invariant maintained by the planning loop: plan destinations are pairwise
distinct, absent from the filesystem snapshot, and all recorded in the claimed
set. -/
def planInvariant (fs : Finset FsPath) (st : PlanState) : Prop :=
  (st.plans.map (fun p => p.destination)).Nodup
  ∧ (∀ p ∈ st.plans, p.destination ∉ fs)
  ∧ (∀ p ∈ st.plans, p.destination ∈ st.occupied)

/-! ## Executor -/

/-- One recorded move triple (JSON keys `"from"`, `"to"`, `"rule_id"`). -/
structure MoveRec where
  fromPath : FsPath
  toPath : FsPath
  rule_id : String
deriving DecidableEq

/-- A primitive filesystem mutation performed by the executor / cleanup. -/
inductive FsEffect where
  | mkdirParents (dir : List String)
  | move (src dst : FsPath)
  | rmdir (p : FsPath)
deriving DecidableEq

/-- `execute_moves` from the source: dry-run only logs; in apply mode each
planned move ensures the parent directory and moves the file, with failures
counted and skipped.  `moveFails` is the environment oracle for the `try`
block raising; a failed attempt's partial effects are not tracked since no
claim reads them. -/
def execute_moves (plans : List MovePlan) (apply : Bool) (moveFails : MovePlan → Bool) :
    List MoveRec × Nat × List FsEffect :=
  plans.foldl
    (fun acc move =>
      if !apply then acc
      else if moveFails move then (acc.1, acc.2.1 + 1, acc.2.2)
      else
        (acc.1 ++ [{ fromPath := move.source, toPath := move.destination,
                     rule_id := move.rule_id }],
         acc.2.1,
         acc.2.2 ++ [FsEffect.mkdirParents move.destination.dir,
                     FsEffect.move move.source move.destination]))
    ([], 0, [])

/-- `maybe_make_top_level_destination` from the source; `datedName` is the
strftime rendering of the current local time supplied by the environment. -/
def maybe_make_top_level_destination (destinationDir : List String)
    (create_dated_top_folder : Bool) (apply : Bool) (datedName : String) :
    List String × List FsEffect :=
  if !create_dated_top_folder then (destinationDir, [])
  else
    (destinationDir ++ [datedName],
     if apply then [FsEffect.mkdirParents (destinationDir ++ [datedName])] else [])

/-! ## Transaction store -/

structure TxRecord where
  id : String
  created_at : String
  source_dir : List String
  destination_dir : List String
  moves : List MoveRec
  removed_empty_dirs : List FsPath
  undone_at : Option String := none
deriving DecidableEq

/-- `write_transaction` from the source: the persisted payload (the unique id
and creation timestamp come from the environment clock / `uuid`). -/
def write_transaction (txId createdAt : String) (sourceDir destinationDir : List String)
    (executed_moves : List MoveRec) (removed : List FsPath) : TxRecord :=
  { id := txId, created_at := createdAt, source_dir := sourceDir,
    destination_dir := destinationDir, moves := executed_moves,
    removed_empty_dirs := removed, undone_at := none }

/-! ## `run_tidy` core -/

structure TidyOptions where
  apply : Bool
  flags : ScanFlags
  optimize_priority : Bool
  remove_empty_folders : Bool
  create_dated_top_folder : Bool
  cli_ignore_extensions : List String

/-- Environment of one run: clock readings, transaction identifiers, the
executor failure oracle, and the OS-backed predicates of the scanner. -/
structure TidyEnv where
  reference_time : Int
  datedFolderName : String
  txId : String
  txCreatedAt : String
  moveFails : MovePlan → Bool
  removedDirsResult : List FsPath
  shouldSkip : FsPath → Bool
  dirNonEmpty : FsPath → Bool
  kindMap : String → Option (List String)

structure TidyOutcome where
  run_destination : List String
  plans : List MovePlan
  summary : TidySummary
  executed : List MoveRec
  tx : Option TxRecord
  effects : List FsEffect
  exit_code : Nat

/-- The core of `run_tidy`: rule optimization, ignore-set combination, dated
destination, planning, execution, empty-directory cleanup
(`removedDirsResult` stands for the directories `remove_empty_dirs` removes,
an OS-dependent outcome), and the transaction write.  Config loading, logging
and the optional stats report are the excluded external collaborators. -/
def run_tidy (fs : Finset FsPath) (entries : List RawEntry)
    (sourceDir destinationDir : List String) (rules : List Rule)
    (config : Config) (opts : TidyOptions) (env : TidyEnv) : TidyOutcome :=
  let rulesUsed := if opts.optimize_priority then (optimize_rule_priority rules).1 else rules
  let ignore_extensions := combine_ignore_extensions config opts.cli_ignore_extensions
  let destEffects : List FsEffect :=
    if opts.apply then [FsEffect.mkdirParents destinationDir] else []
  let made := maybe_make_top_level_destination destinationDir opts.create_dated_top_folder
    opts.apply env.datedFolderName
  let planned := plan_moves fs entries sourceDir made.1 rulesUsed opts.flags
    ignore_extensions env.shouldSkip env.dirNonEmpty env.reference_time env.kindMap
  let ex := execute_moves planned.1 opts.apply env.moveFails
  let removed := if opts.apply && opts.remove_empty_folders then env.removedDirsResult else []
  let tx : Option TxRecord :=
    if opts.apply && !ex.1.isEmpty then
      some (write_transaction env.txId env.txCreatedAt sourceDir made.1 ex.1 removed)
    else none
  let summary := { planned.2 with errors := planned.2.errors + ex.2.1, moved := ex.1.length }
  { run_destination := made.1
    plans := planned.1
    summary := summary
    executed := ex.1
    tx := tx
    effects := destEffects ++ made.2 ++ ex.2.2 ++ removed.map FsEffect.rmdir
    exit_code := if summary.errors ≠ 0 then 1 else 0 }

/-! ## Undo -/

structure UndoResult where
  restored : Nat := 0
  collisions : Nat := 0
  errors : Nat := 0
deriving DecidableEq

structure UndoState where
  result : UndoResult
  fs : Finset FsPath
  occupied : Finset FsPath
  performed : List (FsPath × FsPath)

/-- Body of the `for move in reversed(moves)` loop of `undo_transaction`: the
recorded `to` is moved back to the recorded `from`, after record-scoped
collision resolution against the live filesystem. -/
def undoStep (apply : Bool) (undoMoveFails : FsPath → FsPath → Bool)
    (st : UndoState) (m : MoveRec) : UndoState :=
  let source := m.toPath
  if source ∉ st.fs then
    { st with result := { st.result with errors := st.result.errors + 1 } }
  else
    let resolved := resolve_collision st.fs m.fromPath st.occupied
    let st1 := { st with
      occupied := insert resolved.1 st.occupied
      result := { st.result with
        collisions := st.result.collisions + (if resolved.2 then 1 else 0) } }
    if !apply then st1
    else if undoMoveFails source resolved.1 then
      { st1 with result := { st1.result with errors := st1.result.errors + 1 } }
    else
      { st1 with
        result := { st1.result with restored := st1.result.restored + 1 }
        fs := insert resolved.1 (st1.fs.erase source)
        performed := st1.performed ++ [(source, resolved.1)] }

/-- `undo_transaction` from the source; returns the counters, the final
filesystem set, and the `(source, destination)` moves actually performed, in
order.  Directories recorded as removed are recreated in apply mode. -/
def undo_transaction (record : TxRecord) (apply : Bool) (fs : Finset FsPath)
    (undoMoveFails : FsPath → FsPath → Bool) :
    UndoResult × Finset FsPath × List (FsPath × FsPath) :=
  let final := record.moves.reverse.foldl (undoStep apply undoMoveFails)
    { result := {}, fs := fs, occupied := ∅, performed := [] }
  let fsAfterDirs :=
    if apply then record.removed_empty_dirs.foldl (fun acc d => insert d acc) final.fs
    else final.fs
  (final.result, fsAfterDirs, final.performed)

/-- `pick_transaction` from the source: explicit id, or the most recent (the
records list is already newest-first) record not yet undone. -/
def pick_transaction (records : List TxRecord) (txId : Option String) : Option TxRecord :=
  match txId with
  | none => records.find? (fun r => r.undone_at.isNone)
  | some tid => records.find? (fun r => r.id == tid)

structure UndoOutcome where
  exit_code : Nat
  result : UndoResult
  fs : Finset FsPath
  performed : List (FsPath × FsPath)
  stamped : Bool

/-- `run_undo` from the source; `stamped` models `mark_transaction_undone`
being called (the record's `undone_at` being written). -/
def run_undo (records : List TxRecord) (txId : Option String) (apply : Bool)
    (fs : Finset FsPath) (undoMoveFails : FsPath → FsPath → Bool) : UndoOutcome :=
  match pick_transaction records txId with
  | none => { exit_code := 2, result := {}, fs := fs, performed := [], stamped := false }
  | some target =>
    if target.undone_at.isSome then
      { exit_code := 2, result := {}, fs := fs, performed := [], stamped := false }
    else
      let r := undo_transaction target apply fs undoMoveFails
      { exit_code := if r.1.errors ≠ 0 then 1 else 0
        result := r.1
        fs := r.2.1
        performed := r.2.2
        stamped := apply && (r.1.errors == 0) }

/-! ## Concrete fixtures used by counterexamples and witnesses -/

/-- A rule whose extension list contains only the short suffix `.gz`. -/
def gzOnlyRule : Rule :=
  { rule_id := "gz_only", description := "GZ files", subfolder := "GZ",
    enabled := true, built_in := true, mode := "all",
    conditions := [Condition.extension_any [".gz"]] }

/-- A rule whose extension list contains the longer suffix `.tar.gz`. -/
def tarGzRule : Rule :=
  { rule_id := "tar_gz_archives", description := "Tar archives", subfolder := "Archives",
    enabled := true, built_in := true, mode := "all",
    conditions := [Condition.extension_any [".tar.gz"]] }

/-- A scanned file named `archive.tar.gz`. -/
def tarGzItem : ItemInfo :=
  { path := ⟨["src"], "archive.tar.gz"⟩, relative_path := ["archive.tar.gz"],
    name := "archive.tar.gz", is_dir := false, is_symlink := false,
    size_bytes := 1, created_at := 0, has_tag := false }

/-- The built-in `pdf_documents` rule. -/
def pdfRule : Rule :=
  { rule_id := "pdf_documents", description := "PDF Documents",
    subfolder := "Documents/PDF", enabled := true, built_in := true, mode := "all",
    conditions := [Condition.extension_any [".pdf"]] }

/-- An otherwise-equivalent enabled custom rule naming four extensions. -/
def c7wide : Rule :=
  { rule_id := "custom_wide", description := "Wide custom", subfolder := "Custom/Wide",
    enabled := true, built_in := false, mode := "all",
    conditions := [Condition.extension_any [".zzz", ".zz1", ".zz2", ".zz3"]] }

/-- An otherwise-equivalent enabled custom rule naming one extension. -/
def c7narrow : Rule :=
  { rule_id := "custom_narrow", description := "Narrow custom", subfolder := "Custom/Narrow",
    enabled := true, built_in := false, mode := "all",
    conditions := [Condition.extension_any [".zzz"]] }

def docPdfEntry : RawEntry :=
  { path := ⟨["src"], "doc.pdf"⟩, is_dir := false, is_symlink := false,
    size := 1, mtime := 0, has_xattr_tag := false }

def partEntry : RawEntry :=
  { path := ⟨["src"], "video.mp4.part"⟩, is_dir := false, is_symlink := false,
    size := 1, mtime := 0, has_xattr_tag := false }

def tarGzEntry : RawEntry :=
  { path := ⟨["src"], "archive.tar.gz"⟩, is_dir := false, is_symlink := false,
    size := 1, mtime := 0, has_xattr_tag := false }

/-- The default scan flags of a bare `tidy` invocation. -/
def defaultFlags : ScanFlags :=
  { include_folders := false, include_empty_folders := false, ignore_aliases := false,
    ignore_folders := false, include_tagged := false, ignore_tagged := false,
    skip_bundles := true }

def dryOpts : TidyOptions :=
  { apply := false, flags := defaultFlags, optimize_priority := false,
    remove_empty_folders := false, create_dated_top_folder := false,
    cli_ignore_extensions := [] }

def applyOpts : TidyOptions :=
  { dryOpts with apply := true }

def dryDatedOpts : TidyOptions :=
  { dryOpts with create_dated_top_folder := true }

def baseEnv : TidyEnv :=
  { reference_time := 0, datedFolderName := "2026-01-01_00-00-00", txId := "tx-1",
    txCreatedAt := "2026-01-01T00:00:00", moveFails := fun _ => false,
    removedDirsResult := [], shouldSkip := fun _ => false,
    dirNonEmpty := fun _ => false, kindMap := fun _ => none }

/-- The same environment one second later (a different strftime rendering). -/
def altDatedEnv : TidyEnv :=
  { baseEnv with datedFolderName := "2026-01-01_00-00-01" }

/-- A one-move transaction record fixture. -/
def txFixture : TxRecord :=
  { id := "tx-1", created_at := "2026-01-01T00:00:00", source_dir := ["src"],
    destination_dir := ["dest"],
    moves := [{ fromPath := ⟨["src"], "doc.pdf"⟩,
                toPath := ⟨["dest", "Documents", "PDF"], "doc.pdf"⟩,
                rule_id := "pdf_documents" }],
    removed_empty_dirs := [], undone_at := none }

/-- The record fixture after its undo has been stamped. -/
def txFixtureDone : TxRecord :=
  { txFixture with undone_at := some "2026-01-02T00:00:00" }

/-! # Theorems -/

/-! ## String and decimal-rendering facts -/

theorem strData_append (s t : String) : (s ++ t).data = s.data ++ t.data := rfl

theorem toDigitsCore_eq_decDigits :
    ∀ (fuel n : Nat) (ds : List Char), n < fuel →
      Nat.toDigitsCore 10 fuel n ds = decDigits n ++ ds
  | 0, _, _, h => absurd h (by omega)
  | fuel + 1, n, ds, h => by
    rw [Nat.toDigitsCore]
    by_cases h10 : n / 10 = 0
    · rw [if_pos h10, decDigits, dif_pos (show n < 10 by omega),
        Nat.mod_eq_of_lt (show n < 10 by omega)]
      simp
    · rw [if_neg h10,
        toDigitsCore_eq_decDigits fuel (n / 10) _ (by omega)]
      conv_rhs => rw [decDigits]
      rw [dif_neg (show ¬n < 10 by omega)]
      simp

theorem repr_eq_decDigits (n : Nat) : Nat.repr n = (decDigits n).asString := by
  show (Nat.toDigits 10 n).asString = _
  rw [Nat.toDigits, toDigitsCore_eq_decDigits (n + 1) n [] (by omega)]
  simp

theorem digitVal_digitChar (n : Nat) (h : n < 10) : digitVal (Nat.digitChar n) = n := by
  interval_cases n <;> decide

theorem foldl_decDigits (n : Nat) :
    ∀ acc : Nat, (decDigits n).foldl (fun acc c => acc * 10 + digitVal c) acc
      = acc * 10 ^ (decDigits n).length + n := by
  induction n using Nat.strong_induction_on with
  | _ n ih =>
    intro acc
    by_cases h : n < 10
    · rw [decDigits, dif_pos h]
      simp [digitVal_digitChar n h]
    · rw [decDigits, dif_neg h]
      rw [List.foldl_append, ih (n / 10) (by omega) acc]
      simp only [List.foldl_cons, List.foldl_nil, List.length_append, List.length_cons,
        List.length_nil, digitVal_digitChar (n % 10) (by omega)]
      have hdm : n / 10 * 10 + n % 10 = n := by omega
      have hpow : 10 ^ ((decDigits (n / 10)).length + (0 + 1))
          = 10 ^ (decDigits (n / 10)).length * 10 := by
        rw [Nat.zero_add, pow_succ]
      rw [hpow]
      nlinarith [hdm]

theorem digitsVal_decDigits (n : Nat) : digitsVal (decDigits n) = n := by
  have h := foldl_decDigits n 0
  simpa [digitsVal] using h

theorem decDigits_inj {a b : Nat} (h : decDigits a = decDigits b) : a = b := by
  have ha := digitsVal_decDigits a
  have hb := digitsVal_decDigits b
  rw [h, hb] at ha
  omega

theorem natRepr_inj {a b : Nat} (h : Nat.repr a = Nat.repr b) : a = b := by
  rw [repr_eq_decDigits, repr_eq_decDigits] at h
  unfold List.asString at h
  injection h with h
  exact decDigits_inj h

theorem collisionName_inj (base suffix : String) {i j : Nat}
    (h : collisionName base suffix i = collisionName base suffix j) : i = j := by
  apply natRepr_inj
  unfold collisionName at h
  have hd := congrArg String.data h
  simp only [strData_append, List.append_assoc] at hd
  have h1 := List.append_cancel_left hd
  have h2 := List.append_cancel_left h1
  rw [← List.append_assoc, ← List.append_assoc] at h2
  have h3 := List.append_cancel_right h2
  have h4 := List.append_cancel_right h3
  exact congrArg String.mk h4

/-! ## Termination and freeness of the collision search -/

theorem resolveCollisionLoop_none_mem (fs occupied : Finset FsPath) (dir : List String)
    (base suffix : String) :
    ∀ (fuel index : Nat),
      resolveCollisionLoop fs occupied dir base suffix fuel index = none →
      ∀ k < fuel, (⟨dir, collisionName base suffix (index + k)⟩ : FsPath) ∈ fs ∪ occupied := by
  intro fuel
  induction fuel with
  | zero => intro index _ k hk; omega
  | succ fuel ih =>
    intro index hnone k hk
    rw [resolveCollisionLoop] at hnone
    by_cases hfree :
        (⟨dir, collisionName base suffix index⟩ : FsPath) ∉ fs ∧
        (⟨dir, collisionName base suffix index⟩ : FsPath) ∉ occupied
    · simp [hfree] at hnone
    · rw [if_neg hfree] at hnone
      rcases k with _ | k
      · rw [Finset.mem_union]
        rcases not_and_or.mp hfree with hmem | hmem
        · exact Or.inl (not_not.mp hmem)
        · exact Or.inr (not_not.mp hmem)
      · have hk' := ih (index + 1) hnone k (by omega)
        have harith : index + 1 + k = index + (k + 1) := by omega
        rwa [harith] at hk'

theorem resolveCollisionLoop_isSome (fs occupied : Finset FsPath) (dir : List String)
    (base suffix : String) (index : Nat) :
    (resolveCollisionLoop fs occupied dir base suffix
      (collisionFuel fs occupied) index).isSome := by
  by_contra h
  have hnone : resolveCollisionLoop fs occupied dir base suffix
      (collisionFuel fs occupied) index = none := by
    cases heq : resolveCollisionLoop fs occupied dir base suffix
        (collisionFuel fs occupied) index with
    | none => rfl
    | some c => rw [heq] at h; simp at h
  have hmem := resolveCollisionLoop_none_mem fs occupied dir base suffix _ index hnone
  have hcard : (Finset.univ : Finset (Fin (collisionFuel fs occupied))).card
      ≤ (fs ∪ occupied).card := by
    apply Finset.card_le_card_of_injOn
      (fun k => (⟨dir, collisionName base suffix (index + k.1)⟩ : FsPath))
    · intro k _
      exact hmem k.1 k.2
    · intro a _ b _ hab
      have hname : collisionName base suffix (index + a.1)
          = collisionName base suffix (index + b.1) := congrArg FsPath.name hab
      have hinj := collisionName_inj base suffix hname
      exact Fin.ext (by omega)
  simp only [Finset.card_univ, Fintype.card_fin, collisionFuel] at hcard
  omega

theorem resolveCollisionLoop_some_free (fs occupied : Finset FsPath) (dir : List String)
    (base suffix : String) :
    ∀ (fuel index : Nat) (c : FsPath),
      resolveCollisionLoop fs occupied dir base suffix fuel index = some c →
      c ∉ fs ∧ c ∉ occupied := by
  intro fuel
  induction fuel with
  | zero => intro index c h; rw [resolveCollisionLoop] at h; exact absurd h (by simp)
  | succ fuel ih =>
    intro index c h
    rw [resolveCollisionLoop] at h
    by_cases hfree :
        (⟨dir, collisionName base suffix index⟩ : FsPath) ∉ fs ∧
        (⟨dir, collisionName base suffix index⟩ : FsPath) ∉ occupied
    · rw [if_pos hfree] at h
      injection h with h
      rw [← h]
      exact hfree
    · rw [if_neg hfree] at h
      exact ih (index + 1) c h

theorem resolve_collision_free (fs : Finset FsPath) (target : FsPath)
    (occupied : Finset FsPath) :
    (resolve_collision fs target occupied).1 ∉ fs ∧
    (resolve_collision fs target occupied).1 ∉ occupied := by
  unfold resolve_collision
  by_cases hfree : target ∉ fs ∧ target ∉ occupied
  · rw [if_pos hfree]
    exact hfree
  · rw [if_neg hfree]
    rcases heq : resolveCollisionLoop fs occupied target.dir
        (split_base_and_suffix target.name).1 (split_base_and_suffix target.name).2
        (collisionFuel fs occupied) 1 with _ | c
    · have hsome := resolveCollisionLoop_isSome fs occupied target.dir
        (split_base_and_suffix target.name).1 (split_base_and_suffix target.name).2 1
      rw [heq] at hsome
      simp at hsome
    · exact resolveCollisionLoop_some_free fs occupied target.dir _ _ _ _ c heq

/-! ## Optimizer facts -/

theorem sortedScored_pairwise (rules : List Rule) :
    (sortedScored rules).Pairwise scoreOrder :=
  List.sorted_insertionSort scoreOrder (enabledScored rules)

theorem enabledScored_idx_nodup (rules : List Rule) :
    ((enabledScored rules).map (fun e => e.2.2)).Nodup := by
  have hsub : ((rules.enum.filter (fun p => p.2.enabled)).map Prod.fst).Sublist
      (rules.enum.map Prod.fst) := (List.filter_sublist _).map _
  have hnodup : ((rules.enum.filter (fun p => p.2.enabled)).map Prod.fst).Nodup := by
    refine List.Nodup.sublist hsub ?_
    rw [List.enum_map_fst]
    exact List.nodup_range _
  unfold enabledScored
  rw [List.map_map]
  exact hnodup

theorem sortedScored_perm (rules : List Rule) :
    (sortedScored rules).Perm (enabledScored rules) :=
  List.perm_insertionSort _ _

theorem sortedScored_idx_nodup (rules : List Rule) :
    ((sortedScored rules).map (fun e => e.2.2)).Nodup :=
  (((sortedScored_perm rules).map _).nodup_iff).mpr (enabledScored_idx_nodup rules)

theorem sortedScored_pairwise_strict (rules : List Rule) :
    (sortedScored rules).Pairwise strictScoreOrder := by
  have h1 := sortedScored_pairwise rules
  have h2 : (sortedScored rules).Pairwise (fun a b => a.2.2 ≠ b.2.2) :=
    List.pairwise_map.mp (sortedScored_idx_nodup rules)
  refine (h1.and h2).imp ?_
  rintro a b ⟨hord, hne⟩
  rcases hord with h | ⟨hs, hi⟩
  · exact Or.inl h
  · exact Or.inr ⟨hs, lt_of_le_of_ne hi hne⟩

/-! ## Planner invariant (claim C1) -/

theorem planStep_invariant (fs : Finset FsPath) (destinationDir : List String)
    (enabledRules : List Rule) (reference_time : Int)
    (kindMap : String → Option (List String)) (st : PlanState) (item : ItemInfo)
    (h : planInvariant fs st) :
    planInvariant fs (planStep fs destinationDir enabledRules reference_time kindMap st item) := by
  obtain ⟨hnodup, hfs, hocc⟩ := h
  unfold planStep
  cases hm : firstMatch enabledRules item reference_time kindMap with
  | none => exact ⟨hnodup, hfs, hocc⟩
  | some matched_rule =>
    have hfree := resolve_collision_free fs
      (⟨destinationDir
          ++ (splitChar '/' matched_rule.subfolder.data).map (fun p => (⟨p⟩ : String)),
        item.name⟩ : FsPath) st.occupied
    refine ⟨?_, ?_, ?_⟩
    · rw [List.map_append, List.nodup_append]
      refine ⟨hnodup, List.nodup_singleton _, ?_⟩
      intro d hd hd'
      simp only [List.map_cons, List.map_nil, List.mem_singleton] at hd'
      subst hd'
      obtain ⟨p, hp, hpd⟩ := List.mem_map.mp hd
      exact hfree.2 (hpd ▸ hocc p hp)
    · intro p hp
      rcases List.mem_append.mp hp with hp | hp
      · exact hfs p hp
      · simp only [List.mem_singleton] at hp
        subst hp
        exact hfree.1
    · intro p hp
      rcases List.mem_append.mp hp with hp | hp
      · exact Finset.mem_insert_of_mem (hocc p hp)
      · simp only [List.mem_singleton] at hp
        subst hp
        exact Finset.mem_insert_self _ _

theorem foldl_planStep_invariant (fs : Finset FsPath) (destinationDir : List String)
    (enabledRules : List Rule) (reference_time : Int)
    (kindMap : String → Option (List String)) :
    ∀ (items : List ItemInfo) (st : PlanState), planInvariant fs st →
      planInvariant fs
        (items.foldl (planStep fs destinationDir enabledRules reference_time kindMap) st) := by
  intro items
  induction items with
  | nil => intro st h; exact h
  | cons item rest ih =>
    intro st h
    exact ih _ (planStep_invariant fs destinationDir enabledRules reference_time kindMap
      st item h)

/-! ## Planner: provenance of plan sources -/

theorem planStep_sources (fs : Finset FsPath) (destinationDir : List String)
    (enabledRules : List Rule) (reference_time : Int)
    (kindMap : String → Option (List String)) (st : PlanState) (item : ItemInfo) :
    ∀ p ∈ (planStep fs destinationDir enabledRules reference_time kindMap st item).plans,
      p ∈ st.plans ∨ p.source = item.path := by
  intro p hp
  unfold planStep at hp
  cases hm : firstMatch enabledRules item reference_time kindMap with
  | none =>
    rw [hm] at hp
    exact Or.inl hp
  | some matched_rule =>
    rw [hm] at hp
    simp only [List.mem_append, List.mem_singleton] at hp
    rcases hp with hp | hp
    · exact Or.inl hp
    · subst hp
      exact Or.inr rfl

theorem foldl_planStep_sources (fs : Finset FsPath) (destinationDir : List String)
    (enabledRules : List Rule) (reference_time : Int)
    (kindMap : String → Option (List String)) :
    ∀ (items : List ItemInfo) (st : PlanState),
      ∀ p ∈ (items.foldl (planStep fs destinationDir enabledRules reference_time kindMap)
          st).plans,
        p ∈ st.plans ∨ ∃ item ∈ items, p.source = item.path := by
  intro items
  induction items with
  | nil =>
    intro st p hp
    exact Or.inl hp
  | cons item rest ih =>
    intro st p hp
    rcases ih _ p hp with hmem | ⟨it, hit, hsrc⟩
    · rcases planStep_sources fs destinationDir enabledRules reference_time kindMap
          st item p hmem with hmem' | hsrc
      · exact Or.inl hmem'
      · exact Or.inr ⟨item, List.mem_cons_self item rest, hsrc⟩
    · exact Or.inr ⟨it, List.mem_cons_of_mem item hit, hsrc⟩

/-! ## Extension matching facts (claim C8) -/

theorem bestExtStep_isSome (lowerName : String) (best : Option String) (ext : String)
    (h : best.isSome) : (bestExtStep lowerName best ext).isSome := by
  unfold bestExtStep
  cases normalize_extension ext with
  | none => exact h
  | some normalized =>
    dsimp only
    by_cases he : endsWithStr lowerName normalized = true
    · rw [if_pos he]
      cases best with
      | none => simp at h
      | some b =>
        dsimp only
        split <;> rfl
    · rw [if_neg he]
      exact h

theorem bestExtFold_isSome (lowerName : String) (l : List String) :
    ∀ acc : Option String, acc.isSome →
      (l.foldl (bestExtStep lowerName) acc).isSome := by
  induction l with
  | nil => intro acc h; exact h
  | cons a l ih =>
    intro acc h
    exact ih _ (bestExtStep_isSome lowerName acc a h)

theorem bestExtStep_isSome_of_match (lowerName : String) (best : Option String)
    (ext n : String) (hn : normalize_extension ext = some n)
    (he : endsWithStr lowerName n = true) :
    (bestExtStep lowerName best ext).isSome := by
  unfold bestExtStep
  rw [hn]
  dsimp only
  rw [if_pos he]
  cases best with
  | none => rfl
  | some b =>
    dsimp only
    split <;> rfl

theorem matches_extension_of_mem (filename ext n : String) (exts : List String)
    (hmem : ext ∈ exts) (hn : normalize_extension ext = some n)
    (he : endsWithStr (lowerStr filename) n = true) :
    matches_extension filename exts = true := by
  unfold matches_extension bestExtMatch
  induction exts with
  | nil => cases hmem
  | cons a l ih =>
    rw [List.foldl_cons]
    rcases List.mem_cons.mp hmem with rfl | hmem'
    · exact bestExtFold_isSome _ l _ (bestExtStep_isSome_of_match _ none _ n hn he)
    · cases hsome : (bestExtStep (lowerStr filename) none a).isSome with
      | true =>
        exact bestExtFold_isSome _ l _ hsome
      | false =>
        have hstep : bestExtStep (lowerStr filename) none a = none := by
          cases hval : bestExtStep (lowerStr filename) none a with
          | none => rfl
          | some _ => rw [hval] at hsome; simp at hsome
        rw [hstep]
        exact ih hmem'

/-! ## Scanner facts (claim C8) -/

theorem scanStep_cases (sourceDir : List String) (flags : ScanFlags)
    (ignore_extensions : List String) (shouldSkip : FsPath → Bool)
    (dirNonEmpty : FsPath → Bool) (acc : List ItemInfo × Nat) (e : RawEntry) :
    ((scanStep sourceDir flags ignore_extensions shouldSkip dirNonEmpty acc e).1 = acc.1
      ∧ (scanStep sourceDir flags ignore_extensions shouldSkip dirNonEmpty acc e).2
          = acc.2 + 1)
    ∨ (∃ info : ItemInfo,
        (scanStep sourceDir flags ignore_extensions shouldSkip dirNonEmpty acc e).1
            = acc.1 ++ [info]
        ∧ (scanStep sourceDir flags ignore_extensions shouldSkip dirNonEmpty acc e).2 = acc.2
        ∧ info.path = e.path ∧ info.is_dir = e.is_dir
        ∧ (e.is_dir = false →
            matches_extension e.path.name ignore_extensions = false)) := by
  unfold scanStep
  by_cases h1 : shouldSkip e.path = true
  · rw [if_pos h1]
    exact Or.inl ⟨rfl, rfl⟩
  · rw [if_neg h1]
    by_cases hdir : e.is_dir = true
    · rw [if_pos hdir]
      by_cases h2 : (flags.skip_bundles
          && decide (lowerStr (pythonSuffix e.path.name) ∈ BUNDLE_SUFFIXES)) = true
      · rw [if_pos h2]
        exact Or.inl ⟨rfl, rfl⟩
      · rw [if_neg h2]
        by_cases h3 : (!flags.include_folders || flags.ignore_folders) = true
        · rw [if_pos h3]
          exact Or.inl ⟨rfl, rfl⟩
        · rw [if_neg h3]
          by_cases h4 : (flags.include_empty_folders && dirNonEmpty e.path) = true
          · rw [if_pos h4]
            exact Or.inl ⟨rfl, rfl⟩
          · rw [if_neg h4]
            dsimp only
            by_cases h5 : (flags.ignore_tagged
                && (build_item_info sourceDir e true flags.include_tagged).has_tag) = true
            · rw [if_pos h5]
              exact Or.inl ⟨rfl, rfl⟩
            · rw [if_neg h5]
              refine Or.inr ⟨_, rfl, rfl, rfl, hdir.symm, fun hc => ?_⟩
              rw [hdir] at hc
              cases hc
    · rw [if_neg hdir]
      dsimp only
      by_cases h5 : (flags.ignore_aliases
          && (build_item_info sourceDir e false flags.include_tagged).is_symlink) = true
      · rw [if_pos h5]
        exact Or.inl ⟨rfl, rfl⟩
      · rw [if_neg h5]
        by_cases h6 : (flags.ignore_tagged
            && (build_item_info sourceDir e false flags.include_tagged).has_tag) = true
        · rw [if_pos h6]
          exact Or.inl ⟨rfl, rfl⟩
        · rw [if_neg h6]
          by_cases h7 : matches_extension
              (build_item_info sourceDir e false flags.include_tagged).name
              ignore_extensions = true
          · rw [if_pos h7]
            exact Or.inl ⟨rfl, rfl⟩
          · rw [if_neg h7]
            exact Or.inr ⟨_, rfl, rfl, rfl, (Bool.not_eq_true _ ▸ hdir : e.is_dir = false).symm,
              fun _ => Bool.not_eq_true _ ▸ h7⟩

theorem scanFold_sound (sourceDir : List String) (flags : ScanFlags)
    (ignore_extensions : List String) (shouldSkip : FsPath → Bool)
    (dirNonEmpty : FsPath → Bool) :
    ∀ (L : List RawEntry) (acc : List ItemInfo × Nat),
      ∀ item ∈ (L.foldl (scanStep sourceDir flags ignore_extensions shouldSkip dirNonEmpty)
          acc).1,
        item ∈ acc.1
        ∨ ∃ e ∈ L, item.path = e.path ∧ item.is_dir = e.is_dir
            ∧ (e.is_dir = false →
                matches_extension e.path.name ignore_extensions = false) := by
  intro L
  induction L with
  | nil =>
    intro acc item hit
    exact Or.inl hit
  | cons e L ih =>
    intro acc item hit
    rw [List.foldl_cons] at hit
    rcases ih _ item hit with hmem | ⟨e', he', hrest⟩
    · rcases scanStep_cases sourceDir flags ignore_extensions shouldSkip dirNonEmpty acc e
          with ⟨heq, _⟩ | ⟨info, heq, _, hpath, hdir, hign⟩
      · rw [heq] at hmem
        exact Or.inl hmem
      · rw [heq] at hmem
        rcases List.mem_append.mp hmem with hmem' | hmem'
        · exact Or.inl hmem'
        · simp only [List.mem_singleton] at hmem'
          subst hmem'
          exact Or.inr ⟨e, List.mem_cons_self e L, hpath, hdir, hign⟩
    · exact Or.inr ⟨e', List.mem_cons_of_mem e he', hrest⟩

theorem iter_candidate_items_sound (entries : List RawEntry) (sourceDir : List String)
    (flags : ScanFlags) (ignore_extensions : List String)
    (shouldSkip : FsPath → Bool) (dirNonEmpty : FsPath → Bool) :
    ∀ item ∈ (iter_candidate_items entries sourceDir flags ignore_extensions shouldSkip
        dirNonEmpty).1,
      ∃ e ∈ entries, item.path = e.path ∧ item.is_dir = e.is_dir
        ∧ (e.is_dir = false →
            matches_extension e.path.name ignore_extensions = false) := by
  intro item hit
  unfold iter_candidate_items at hit
  rcases scanFold_sound sourceDir flags ignore_extensions shouldSkip dirNonEmpty
      (List.insertionSort entryLE entries) ([], 0) item hit with hmem | ⟨e, he, hrest⟩
  · cases hmem
  · exact ⟨e, (List.perm_insertionSort entryLE entries).mem_iff.mp he, hrest⟩

theorem scanStep_count (sourceDir : List String) (flags : ScanFlags)
    (ignore_extensions : List String) (shouldSkip : FsPath → Bool)
    (dirNonEmpty : FsPath → Bool) (acc : List ItemInfo × Nat) (e : RawEntry) :
    (scanStep sourceDir flags ignore_extensions shouldSkip dirNonEmpty acc e).1.length
      + (scanStep sourceDir flags ignore_extensions shouldSkip dirNonEmpty acc e).2
      = acc.1.length + acc.2 + 1 := by
  rcases scanStep_cases sourceDir flags ignore_extensions shouldSkip dirNonEmpty acc e
      with ⟨h1, h2⟩ | ⟨info, h1, h2, _⟩
  · rw [h1, h2]
    omega
  · rw [h1, h2, List.length_append]
    simp
    omega

theorem scanFold_count (sourceDir : List String) (flags : ScanFlags)
    (ignore_extensions : List String) (shouldSkip : FsPath → Bool)
    (dirNonEmpty : FsPath → Bool) :
    ∀ (L : List RawEntry) (acc : List ItemInfo × Nat),
      (L.foldl (scanStep sourceDir flags ignore_extensions shouldSkip dirNonEmpty) acc).1.length
        + (L.foldl (scanStep sourceDir flags ignore_extensions shouldSkip dirNonEmpty) acc).2
        = acc.1.length + acc.2 + L.length := by
  intro L
  induction L with
  | nil => intro acc; simp
  | cons e L ih =>
    intro acc
    rw [List.foldl_cons, ih, scanStep_count]
    simp only [List.length_cons]
    omega

/-! ## Executor characterization (claims C2, C4) -/

theorem execute_moves_apply (moveFails : MovePlan → Bool) :
    ∀ (plans : List MovePlan) (acc : List MoveRec × Nat × List FsEffect),
      plans.foldl
        (fun acc move =>
          if !true then acc
          else if moveFails move then (acc.1, acc.2.1 + 1, acc.2.2)
          else
            (acc.1 ++ [{ fromPath := move.source, toPath := move.destination,
                         rule_id := move.rule_id }],
             acc.2.1,
             acc.2.2 ++ [FsEffect.mkdirParents move.destination.dir,
                         FsEffect.move move.source move.destination])) acc
      = (acc.1 ++ (plans.filter (fun m => !moveFails m)).map
            (fun m => ({ fromPath := m.source, toPath := m.destination,
                         rule_id := m.rule_id } : MoveRec)),
         acc.2.1 + (plans.filter (fun m => moveFails m)).length,
         acc.2.2 ++ (plans.filter (fun m => !moveFails m)).flatMap
            (fun m => [FsEffect.mkdirParents m.destination.dir,
                       FsEffect.move m.source m.destination])) := by
  intro plans
  induction plans with
  | nil => intro acc; simp
  | cons m plans ih =>
    intro acc
    rw [List.foldl_cons]
    cases hf : moveFails m with
    | true =>
      rw [ih]
      simp [hf]
      omega
    | false =>
      rw [ih]
      simp [hf]

theorem execute_moves_spec (plans : List MovePlan) (moveFails : MovePlan → Bool) :
    execute_moves plans true moveFails
      = ((plans.filter (fun m => !moveFails m)).map
            (fun m => ({ fromPath := m.source, toPath := m.destination,
                         rule_id := m.rule_id } : MoveRec)),
         (plans.filter (fun m => moveFails m)).length,
         (plans.filter (fun m => !moveFails m)).flatMap
            (fun m => [FsEffect.mkdirParents m.destination.dir,
                       FsEffect.move m.source m.destination])) := by
  unfold execute_moves
  rw [execute_moves_apply moveFails plans ([], 0, [])]
  simp

theorem execute_moves_dry (plans : List MovePlan) (moveFails : MovePlan → Bool) :
    execute_moves plans false moveFails = ([], 0, []) := by
  unfold execute_moves
  induction plans with
  | nil => rfl
  | cons m plans ih =>
    rw [List.foldl_cons]
    exact ih

theorem maybe_make_dry (destinationDir : List String) (c : Bool) (datedName : String) :
    (maybe_make_top_level_destination destinationDir c false datedName).2 = [] := by
  unfold maybe_make_top_level_destination
  split <;> simp

/-! ## Undo-loop characterization (claim C5) -/

theorem undoStep_clean (undoMoveFails : FsPath → FsPath → Bool) (st : UndoState) (m : MoveRec)
    (hsrc : m.toPath ∈ st.fs) (hf1 : m.fromPath ∉ st.fs) (hf2 : m.fromPath ∉ st.occupied)
    (hfail : undoMoveFails m.toPath m.fromPath = false) :
    undoStep true undoMoveFails st m
      = { result := { restored := st.result.restored + 1,
                      collisions := st.result.collisions + 0,
                      errors := st.result.errors }
          fs := insert m.fromPath (st.fs.erase m.toPath)
          occupied := insert m.fromPath st.occupied
          performed := st.performed ++ [(m.toPath, m.fromPath)] } := by
  have hres : resolve_collision st.fs m.fromPath st.occupied = (m.fromPath, false) := by
    unfold resolve_collision
    rw [if_pos ⟨hf1, hf2⟩]
  unfold undoStep
  rw [if_neg (not_not_intro hsrc)]
  dsimp only
  rw [hres]
  simp [hfail]

theorem undoFold_clean (undoMoveFails : FsPath → FsPath → Bool) :
    ∀ (ms : List MoveRec) (st : UndoState),
      (∀ m ∈ ms, m.toPath ∈ st.fs) →
      (∀ m ∈ ms, m.fromPath ∉ st.fs) →
      (∀ m ∈ ms, m.fromPath ∉ st.occupied) →
      (∀ m ∈ ms, undoMoveFails m.toPath m.fromPath = false) →
      ((ms.map (fun m => m.fromPath)).Nodup) →
      ((ms.map (fun m => m.toPath)).Nodup) →
      ((ms.foldl (undoStep true undoMoveFails) st).performed
          = st.performed ++ ms.map (fun m => (m.toPath, m.fromPath)))
      ∧ (ms.foldl (undoStep true undoMoveFails) st).result.errors = st.result.errors
      ∧ (ms.foldl (undoStep true undoMoveFails) st).result.restored
          = st.result.restored + ms.length
      ∧ (ms.foldl (undoStep true undoMoveFails) st).result.collisions
          = st.result.collisions := by
  intro ms
  induction ms with
  | nil =>
    intro st _ _ _ _ _ _
    simp
  | cons m ms ih =>
    intro st hto hfrom hocc hfail hndf hndt
    have hsrc : m.toPath ∈ st.fs := hto m (List.mem_cons_self m ms)
    have hstep := undoStep_clean undoMoveFails st m hsrc
      (hfrom m (List.mem_cons_self m ms)) (hocc m (List.mem_cons_self m ms))
      (hfail m (List.mem_cons_self m ms))
    rw [List.foldl_cons, hstep]
    have hndf' := hndf
    rw [List.map_cons, List.nodup_cons] at hndf' hndt
    obtain ⟨hfhead, hndf2⟩ := hndf'
    obtain ⟨hthead, hndt2⟩ := hndt
    have htail := ih
      { result := { restored := st.result.restored + 1,
                    collisions := st.result.collisions + 0,
                    errors := st.result.errors }
        fs := insert m.fromPath (st.fs.erase m.toPath)
        occupied := insert m.fromPath st.occupied
        performed := st.performed ++ [(m.toPath, m.fromPath)] }
      (by
        intro m' hm'
        apply Finset.mem_insert_of_mem
        refine Finset.mem_erase.mpr ⟨?_, hto m' (List.mem_cons_of_mem m hm')⟩
        intro heq
        exact hthead (heq ▸ List.mem_map_of_mem (fun x => x.toPath) hm'))
      (by
        intro m' hm' hmem
        rcases Finset.mem_insert.mp hmem with heq | hmem'
        · exact hfhead (heq ▸ List.mem_map_of_mem (fun x => x.fromPath) hm')
        · exact hfrom m' (List.mem_cons_of_mem m hm') (Finset.mem_of_mem_erase hmem'))
      (by
        intro m' hm' hmem
        rcases Finset.mem_insert.mp hmem with heq | hmem'
        · exact hfhead (heq ▸ List.mem_map_of_mem (fun x => x.fromPath) hm')
        · exact hocc m' (List.mem_cons_of_mem m hm') hmem')
      (fun m' hm' => hfail m' (List.mem_cons_of_mem m hm'))
      hndf2 hndt2
    obtain ⟨hp, he, hr, hc⟩ := htail
    refine ⟨?_, ?_, ?_, ?_⟩
    · rw [hp]
      simp
    · rw [he]
    · rw [hr]
      simp only [List.length_cons]
      omega
    · rw [hc]
      simp

/-! # Claim theorems -/

/-- C9: for every target path, every finite claimed set and every finite set
of existing filesystem entries, the `while True` search of `resolve_collision`
terminates (a free candidate is found within `|existing ∪ claimed| + 1`
indices) and the returned path is neither an existing entry nor a claimed
destination. -/
theorem C9_resolve_collision_terminates_and_free
    (fs occupied : Finset FsPath) (target : FsPath) :
    (resolveCollisionLoop fs occupied target.dir (split_base_and_suffix target.name).1
        (split_base_and_suffix target.name).2 (collisionFuel fs occupied) 1).isSome
    ∧ (resolve_collision fs target occupied).1 ∉ fs
    ∧ (resolve_collision fs target occupied).1 ∉ occupied :=
  ⟨resolveCollisionLoop_isSome fs occupied target.dir _ _ 1,
   (resolve_collision_free fs target occupied).1,
   (resolve_collision_free fs target occupied).2⟩

/-- C6: with an existing `doc.pdf` at the destination, an incoming `doc.pdf`
resolves to `doc (1).pdf` with the renamed flag set; a second incoming
`doc.pdf` in the same run (the first result now in the run-scoped claimed
set) resolves to `doc (2).pdf`; the parenthesized index is inserted between
the base `doc` and the extension suffix `.pdf`. -/
theorem C6_collision_rename_doc_pdf :
    resolve_collision {(⟨["dest"], "doc.pdf"⟩ : FsPath)} ⟨["dest"], "doc.pdf"⟩ ∅
      = (⟨["dest"], "doc (1).pdf"⟩, true)
    ∧ resolve_collision {(⟨["dest"], "doc.pdf"⟩ : FsPath)} ⟨["dest"], "doc.pdf"⟩
        {(⟨["dest"], "doc (1).pdf"⟩ : FsPath)}
      = (⟨["dest"], "doc (2).pdf"⟩, true)
    ∧ split_base_and_suffix "doc.pdf" = ("doc", ".pdf")
    ∧ collisionName "doc" ".pdf" 1 = "doc (1).pdf"
    ∧ collisionName "doc" ".pdf" 2 = "doc (2).pdf" := by
  refine ⟨by decide, by decide, by decide, by decide, by decide⟩

/-- C10: the effective ignore-extension set of a tidy run contains the seven
built-in defaults, whatever the configuration and CLI extension list supply;
they can only add extensions. -/
theorem C10_ignore_defaults_preserved (config : Config) (cli_extensions : List String) :
    DEFAULT_IGNORE_EXTENSIONS
        = [".crdownload", ".part", ".partial", ".download", ".opdownload", ".!qb", ".tmp"]
    ∧ ∀ ext ∈ DEFAULT_IGNORE_EXTENSIONS,
        ext ∈ combine_ignore_extensions config cli_extensions := by
  refine ⟨rfl, ?_⟩
  intro ext hext
  unfold combine_ignore_extensions
  exact List.mem_append.mpr (Or.inl (List.mem_append.mpr (Or.inl hext)))

/-- Witness for C10 at a configuration and CLI list that both add
extensions. -/
theorem C10_witness :
    ".part" ∈ combine_ignore_extensions { ignore_extensions := [".foo"] } [".bar"] :=
  (C10_ignore_defaults_preserved { ignore_extensions := [".foo"] } [".bar"]).2
    ".part" (by decide)

/-- C1: in every run of `plan_moves` the planned destinations are pairwise
distinct and none of them exists on disk at resolution time (the claimed-set
bookkeeping makes each new destination avoid both the filesystem snapshot and
every destination claimed earlier in the run). -/
theorem C1_plan_destinations_distinct_and_fresh
    (fs : Finset FsPath) (entries : List RawEntry)
    (sourceDir destinationDir : List String) (rules : List Rule)
    (flags : ScanFlags) (ignore_extensions : List String)
    (shouldSkip : FsPath → Bool) (dirNonEmpty : FsPath → Bool)
    (reference_time : Int) (kindMap : String → Option (List String)) :
    ((plan_moves fs entries sourceDir destinationDir rules flags ignore_extensions
        shouldSkip dirNonEmpty reference_time kindMap).1.map
          (fun p => p.destination)).Nodup
    ∧ ∀ p ∈ (plan_moves fs entries sourceDir destinationDir rules flags ignore_extensions
        shouldSkip dirNonEmpty reference_time kindMap).1,
        p.destination ∉ fs := by
  have h := foldl_planStep_invariant fs destinationDir (rules.filter (fun r => r.enabled))
    reference_time kindMap
    (List.insertionSort planOrder
      (iter_candidate_items entries sourceDir flags ignore_extensions shouldSkip
        dirNonEmpty).1)
    { occupied := ∅, plans := [],
      summary :=
        { ignored := (iter_candidate_items entries sourceDir flags ignore_extensions
            shouldSkip dirNonEmpty).2,
          scanned := (iter_candidate_items entries sourceDir flags ignore_extensions
            shouldSkip dirNonEmpty).1.length,
          total_targets := (iter_candidate_items entries sourceDir flags ignore_extensions
            shouldSkip dirNonEmpty).1.length },
      used_rules := ∅ }
    (by
      unfold planInvariant
      exact ⟨List.nodup_nil, fun p hp => absurd hp (List.not_mem_nil p),
        fun p hp => absurd hp (List.not_mem_nil p)⟩)
  obtain ⟨h1, h2, h3⟩ := h
  exact ⟨h1, h2⟩

/-- Witness for C1: the plan of a concrete run has pairwise-distinct
destinations. -/
theorem C1_witness :
    ((plan_moves ∅ [docPdfEntry, partEntry] ["src"] ["dest"] [pdfRule]
        defaultFlags DEFAULT_IGNORE_EXTENSIONS (fun _ => false) (fun _ => false) 0
        (fun _ => none)).1.map (fun p => p.destination)).Nodup :=
  (C1_plan_destinations_distinct_and_fresh ∅ [docPdfEntry, partEntry] ["src"] ["dest"]
    [pdfRule] defaultFlags DEFAULT_IGNORE_EXTENSIONS (fun _ => false) (fun _ => false) 0
    (fun _ => none)).1

/-- The rule assigned by `plan_moves` is the first enabled matching rule in
catalog order (the inner loop breaks at the first match). -/
theorem firstMatch_first_wins (rules₁ : List Rule) (r : Rule) (rules₂ : List Rule)
    (item : ItemInfo) (reference_time : Int) (kindMap : String → Option (List String))
    (hpre : ∀ r' ∈ rules₁, matches_rule r' item reference_time kindMap = false)
    (hr : matches_rule r item reference_time kindMap = true) :
    firstMatch (rules₁ ++ r :: rules₂) item reference_time kindMap = some r := by
  unfold firstMatch
  induction rules₁ with
  | nil =>
    rw [List.nil_append]
    exact List.find?_cons_of_pos _ hr
  | cons a as ih =>
    rw [List.cons_append, List.find?_cons_of_neg _ (by
      rw [hpre a (List.mem_cons_self a as)]
      exact Bool.false_ne_true)]
    exact ih (fun r' hr' => hpre r' (List.mem_cons_of_mem a hr'))

/-- C3 counterexample: with an enabled `.gz`-only rule listed before an
enabled `.tar.gz` rule, `plan_moves` assigns `archive.tar.gz` to the
`.gz`-only rule, not to the rule with the longer matching suffix — the claim
fails as soon as the shorter-suffix rule precedes the longer one in the
catalog. -/
theorem C3_counterexample :
    firstMatch [gzOnlyRule, tarGzRule] tarGzItem 0 (fun _ => none) = some gzOnlyRule
    ∧ (plan_moves ∅ [tarGzEntry] ["src"] ["dest"] [gzOnlyRule, tarGzRule]
        defaultFlags [] (fun _ => false) (fun _ => false) 0 (fun _ => none)).1
      = [{ source := ⟨["src"], "archive.tar.gz"⟩,
           destination := ⟨["dest", "GZ"], "archive.tar.gz"⟩,
           rule_id := "gz_only", rule_description := "GZ files",
           collision_renamed := false }]
    ∧ gzOnlyRule ≠ tarGzRule := by
  refine ⟨by decide, by decide, by decide⟩

/-- C3 amended: when two enabled extension rules both match a file such as
`archive.tar.gz` — which matches both a `.tar.gz`-list rule and a `.gz`-list
rule, since `matches_extension` returns only a boolean — the rule assigned is
whichever comes first in the catalog; the longest-suffix selection inside
`matches_extension` never influences cross-rule priority. -/
theorem C3_amended_first_enabled_match_wins (rules₁ : List Rule) (r : Rule)
    (rules₂ : List Rule) (item : ItemInfo) (reference_time : Int)
    (kindMap : String → Option (List String))
    (hpre : ∀ r' ∈ rules₁, matches_rule r' item reference_time kindMap = false)
    (hr : matches_rule r item reference_time kindMap = true) :
    firstMatch (rules₁ ++ r :: rules₂) item reference_time kindMap = some r
    ∧ matches_rule gzOnlyRule tarGzItem 0 (fun _ => none) = true
    ∧ matches_rule tarGzRule tarGzItem 0 (fun _ => none) = true :=
  ⟨firstMatch_first_wins rules₁ r rules₂ item reference_time kindMap hpre hr,
   by decide, by decide⟩

/-- Witness for the amended C3: the `.gz`-only rule heads the catalog and is
assigned. -/
theorem C3_amended_witness :
    firstMatch ([] ++ gzOnlyRule :: [tarGzRule]) tarGzItem 0 (fun _ => none)
      = some gzOnlyRule :=
  (C3_amended_first_enabled_match_wins [] gzOnlyRule [tarGzRule] tarGzItem 0 (fun _ => none)
    (fun r' hr' => absurd hr' (List.not_mem_nil r')) (by decide)).1

theorem c7wide_score : rule_specificity_score c7wide = 51 := by
  have h4 : (([".zzz", ".zz1", ".zz2", ".zz3"] : List String).filterMap
      normalize_extension).length = 4 := by decide
  rw [rule_specificity_score]
  norm_num [c7wide, condition_specificity_score, h4]
  decide

theorem c7narrow_score : rule_specificity_score c7narrow = 141 := by
  have h1 : (([".zzz"] : List String).filterMap normalize_extension).length = 1 := by decide
  rw [rule_specificity_score]
  norm_num [c7narrow, condition_specificity_score, h1]
  decide

theorem c7_example_order :
    (optimize_rule_priority [c7wide, c7narrow]).1 = [c7narrow, c7wide] := by
  have hord : ¬ scoreOrder (c7wide, rule_specificity_score c7wide, 0)
      (c7narrow, rule_specificity_score c7narrow, 1) := by
    unfold scoreOrder
    dsimp only
    rw [c7wide_score, c7narrow_score]
    norm_num
  have hsort : sortedScored [c7wide, c7narrow]
      = [(c7narrow, rule_specificity_score c7narrow, 1),
         (c7wide, rule_specificity_score c7wide, 0)] := by
    show List.insertionSort scoreOrder (enabledScored [c7wide, c7narrow]) = _
    have hen : enabledScored [c7wide, c7narrow]
        = [(c7wide, rule_specificity_score c7wide, 0),
           (c7narrow, rule_specificity_score c7narrow, 1)] := rfl
    rw [hen]
    simp only [List.insertionSort, List.orderedInsert]
    rw [if_neg hord]
  show (sortedScored [c7wide, c7narrow]).map (fun e => e.1)
      ++ [c7wide, c7narrow].filter (fun r => !r.enabled) = [c7narrow, c7wide]
  rw [hsort]
  rfl

section RunTidyComponents

variable (fs : Finset FsPath) (entries : List RawEntry)
  (sourceDir destinationDir : List String) (rules : List Rule)
  (config : Config) (opts : TidyOptions) (env : TidyEnv)

theorem run_tidy_plans :
    (run_tidy fs entries sourceDir destinationDir rules config opts env).plans
      = (plan_moves fs entries sourceDir
          (maybe_make_top_level_destination destinationDir opts.create_dated_top_folder
            opts.apply env.datedFolderName).1
          (if opts.optimize_priority then (optimize_rule_priority rules).1 else rules)
          opts.flags (combine_ignore_extensions config opts.cli_ignore_extensions)
          env.shouldSkip env.dirNonEmpty env.reference_time env.kindMap).1 := rfl

theorem run_tidy_executed :
    (run_tidy fs entries sourceDir destinationDir rules config opts env).executed
      = (execute_moves
          (run_tidy fs entries sourceDir destinationDir rules config opts env).plans
          opts.apply env.moveFails).1 := rfl

theorem run_tidy_tx :
    (run_tidy fs entries sourceDir destinationDir rules config opts env).tx
      = (if opts.apply
            && !(run_tidy fs entries sourceDir destinationDir rules config opts
                  env).executed.isEmpty
         then some (write_transaction env.txId env.txCreatedAt sourceDir
            (run_tidy fs entries sourceDir destinationDir rules config opts
              env).run_destination
            (run_tidy fs entries sourceDir destinationDir rules config opts env).executed
            (if opts.apply && opts.remove_empty_folders then env.removedDirsResult else []))
         else none) := rfl

theorem run_tidy_effects :
    (run_tidy fs entries sourceDir destinationDir rules config opts env).effects
      = (if opts.apply then [FsEffect.mkdirParents destinationDir] else [])
        ++ (maybe_make_top_level_destination destinationDir opts.create_dated_top_folder
            opts.apply env.datedFolderName).2
        ++ (execute_moves
            (run_tidy fs entries sourceDir destinationDir rules config opts env).plans
            opts.apply env.moveFails).2.2
        ++ (if opts.apply && opts.remove_empty_folders then env.removedDirsResult
            else []).map FsEffect.rmdir := rfl

theorem run_tidy_summary :
    (run_tidy fs entries sourceDir destinationDir rules config opts env).summary
      = { (plan_moves fs entries sourceDir
            (maybe_make_top_level_destination destinationDir opts.create_dated_top_folder
              opts.apply env.datedFolderName).1
            (if opts.optimize_priority then (optimize_rule_priority rules).1 else rules)
            opts.flags (combine_ignore_extensions config opts.cli_ignore_extensions)
            env.shouldSkip env.dirNonEmpty env.reference_time env.kindMap).2 with
          errors := (plan_moves fs entries sourceDir
            (maybe_make_top_level_destination destinationDir opts.create_dated_top_folder
              opts.apply env.datedFolderName).1
            (if opts.optimize_priority then (optimize_rule_priority rules).1 else rules)
            opts.flags (combine_ignore_extensions config opts.cli_ignore_extensions)
            env.shouldSkip env.dirNonEmpty env.reference_time env.kindMap).2.errors
              + (execute_moves
                  (run_tidy fs entries sourceDir destinationDir rules config opts
                    env).plans opts.apply env.moveFails).2.1
          moved := (execute_moves
              (run_tidy fs entries sourceDir destinationDir rules config opts env).plans
              opts.apply env.moveFails).1.length } := rfl

end RunTidyComponents

/-- Every plan entry's source path is the path of some scanned candidate. -/
theorem plan_moves_sources (fs : Finset FsPath) (entries : List RawEntry)
    (sourceDir destinationDir : List String) (rules : List Rule)
    (flags : ScanFlags) (ignore_extensions : List String)
    (shouldSkip : FsPath → Bool) (dirNonEmpty : FsPath → Bool)
    (reference_time : Int) (kindMap : String → Option (List String)) :
    ∀ p ∈ (plan_moves fs entries sourceDir destinationDir rules flags ignore_extensions
        shouldSkip dirNonEmpty reference_time kindMap).1,
      ∃ item ∈ (iter_candidate_items entries sourceDir flags ignore_extensions shouldSkip
          dirNonEmpty).1,
        p.source = item.path := by
  intro p hp
  have h := foldl_planStep_sources fs destinationDir (rules.filter (fun r => r.enabled))
    reference_time kindMap
    (List.insertionSort planOrder
      (iter_candidate_items entries sourceDir flags ignore_extensions shouldSkip
        dirNonEmpty).1)
    { occupied := ∅, plans := [],
      summary :=
        { ignored := (iter_candidate_items entries sourceDir flags ignore_extensions
            shouldSkip dirNonEmpty).2,
          scanned := (iter_candidate_items entries sourceDir flags ignore_extensions
            shouldSkip dirNonEmpty).1.length,
          total_targets := (iter_candidate_items entries sourceDir flags ignore_extensions
            shouldSkip dirNonEmpty).1.length },
      used_rules := ∅ }
    p hp
  rcases h with h | ⟨item, hit, hsrc⟩
  · cases h
  · exact ⟨item, (List.perm_insertionSort planOrder _).mem_iff.mp hit, hsrc⟩

/-- C2: in apply mode the executed list is exactly the successful planned
moves as `{from, to, rule_id}` triples in plan order (failed moves are
skipped); a transaction record is written iff at least one move succeeded,
and its move list is exactly the executed list; in dry-run mode nothing is
executed and no record is written. -/
theorem C2_transaction_record (fs : Finset FsPath) (entries : List RawEntry)
    (sourceDir destinationDir : List String) (rules : List Rule)
    (config : Config) (opts : TidyOptions) (env : TidyEnv) :
    (opts.apply = true →
      (run_tidy fs entries sourceDir destinationDir rules config opts env).executed
        = ((run_tidy fs entries sourceDir destinationDir rules config opts
              env).plans.filter (fun m => !env.moveFails m)).map
            (fun m => ({ fromPath := m.source, toPath := m.destination,
                         rule_id := m.rule_id } : MoveRec))
      ∧ ((run_tidy fs entries sourceDir destinationDir rules config opts
            env).tx.isSome = true
          ↔ (run_tidy fs entries sourceDir destinationDir rules config opts
              env).executed ≠ [])
      ∧ ∀ r, (run_tidy fs entries sourceDir destinationDir rules config opts
            env).tx = some r →
          r.moves = (run_tidy fs entries sourceDir destinationDir rules config opts
            env).executed)
    ∧ (opts.apply = false →
        (run_tidy fs entries sourceDir destinationDir rules config opts env).tx = none
        ∧ (run_tidy fs entries sourceDir destinationDir rules config opts
            env).executed = []) := by
  constructor
  · intro h
    refine ⟨?_, ?_, ?_⟩
    · rw [run_tidy_executed, h, execute_moves_spec]
    · rw [run_tidy_tx, h]
      cases hE : (run_tidy fs entries sourceDir destinationDir rules config opts
          env).executed with
      | nil => simp
      | cons a l => simp
    · intro r
      rw [run_tidy_tx, h]
      by_cases hE : (run_tidy fs entries sourceDir destinationDir rules config opts
          env).executed.isEmpty = true
      · rw [hE]
        simp
      · rw [Bool.not_eq_true] at hE
        rw [hE]
        simp only [Bool.true_and, Bool.not_false, if_true]
        intro heq
        injection heq with heq
        rw [← heq]
        rfl
  · intro h
    constructor
    · rw [run_tidy_tx, h]
      simp
    · rw [run_tidy_executed, h, execute_moves_dry]

/-- Witness for C2: an apply run that moves `doc.pdf` writes a transaction
record. -/
theorem C2_witness :
    (run_tidy ∅ [docPdfEntry] ["src"] ["dest"] [pdfRule] {} applyOpts
      baseEnv).tx.isSome = true := by
  have h := (C2_transaction_record ∅ [docPdfEntry] ["src"] ["dest"] [pdfRule] {}
    applyOpts baseEnv).1 rfl
  exact h.2.1.mpr (by decide)

/-- C4 counterexample: with the dated-top-folder option enabled, two dry runs
over the same unchanged tree and identical options produce different move
plans when the clock reading (the strftime folder name) differs, refuting the
unconditional idempotence claim. -/
theorem C4_counterexample :
    (run_tidy ∅ [docPdfEntry] ["src"] ["dest"] [pdfRule] {} dryDatedOpts baseEnv).plans
      ≠ (run_tidy ∅ [docPdfEntry] ["src"] ["dest"] [pdfRule] {} dryDatedOpts
          altDatedEnv).plans
    ∧ dryDatedOpts.apply = false := by
  refine ⟨by decide, rfl⟩

/-- C4 amended: a dry-run tidy performs no filesystem effect and writes no
transaction record, and its move plan and summary depend only on the tree,
the options and the clock readings — two dry runs observing the same clock
(any executor-failure oracle, transaction identifiers and cleanup results)
yield identical plans and identical summaries. -/
theorem C4_dry_run_no_mutation_and_deterministic (fs : Finset FsPath)
    (entries : List RawEntry) (sourceDir destinationDir : List String)
    (rules : List Rule) (config : Config) (opts : TidyOptions) (env : TidyEnv)
    (h : opts.apply = false) :
    (run_tidy fs entries sourceDir destinationDir rules config opts env).effects = []
    ∧ (run_tidy fs entries sourceDir destinationDir rules config opts env).tx = none
    ∧ ∀ (f : MovePlan → Bool) (i c : String) (d : List FsPath),
        (run_tidy fs entries sourceDir destinationDir rules config opts
            { env with moveFails := f, txId := i, txCreatedAt := c,
                       removedDirsResult := d }).plans
          = (run_tidy fs entries sourceDir destinationDir rules config opts env).plans
        ∧ (run_tidy fs entries sourceDir destinationDir rules config opts
            { env with moveFails := f, txId := i, txCreatedAt := c,
                       removedDirsResult := d }).summary
          = (run_tidy fs entries sourceDir destinationDir rules config opts env).summary := by
  refine ⟨?_, ?_, ?_⟩
  · rw [run_tidy_effects, h, execute_moves_dry, maybe_make_dry]
    simp
  · rw [run_tidy_tx, h]
    simp
  · intro f i c d
    constructor
    · rfl
    · rw [run_tidy_summary, run_tidy_summary, h, execute_moves_dry, execute_moves_dry]

/-- Witness for C4 (amended): a concrete dry run has no effects and the same
plans under a different failure oracle and transaction id. -/
theorem C4_witness :
    (run_tidy ∅ [docPdfEntry] ["src"] ["dest"] [pdfRule] {} dryOpts baseEnv).effects = []
    ∧ (run_tidy ∅ [docPdfEntry] ["src"] ["dest"] [pdfRule] {} dryOpts
        { baseEnv with moveFails := fun _ => true, txId := "other",
                       txCreatedAt := "later", removedDirsResult := [] }).plans
      = (run_tidy ∅ [docPdfEntry] ["src"] ["dest"] [pdfRule] {} dryOpts baseEnv).plans := by
  have h := C4_dry_run_no_mutation_and_deterministic ∅ [docPdfEntry] ["src"] ["dest"]
    [pdfRule] {} dryOpts baseEnv rfl
  exact ⟨h.1, (h.2.2 (fun _ => true) "other" "later" []).1⟩

/-- C8: a file entry whose name ends (case-insensitively) in one of
`.crdownload`, `.part`, `.partial`, `.download` appears in no move plan entry
of any tidy run — it is excluded during scanning — and every scanned entry is
either a candidate or counted as ignored. -/
theorem C8_ignored_extension_files_never_planned (fs : Finset FsPath)
    (entries : List RawEntry) (sourceDir destinationDir : List String)
    (rules : List Rule) (config : Config) (opts : TidyOptions) (env : TidyEnv)
    (e : RawEntry)
    (hnodup : (entries.map (fun x => x.path)).Nodup)
    (he : e ∈ entries) (hfile : e.is_dir = false)
    (hext : ∃ ext ∈ ([".crdownload", ".part", ".partial", ".download"] : List String),
        endsWithStr (lowerStr e.path.name) ext = true) :
    (∀ p ∈ (run_tidy fs entries sourceDir destinationDir rules config opts env).plans,
        p.source ≠ e.path)
    ∧ (iter_candidate_items entries sourceDir opts.flags
          (combine_ignore_extensions config opts.cli_ignore_extensions)
          env.shouldSkip env.dirNonEmpty).1.length
        + (iter_candidate_items entries sourceDir opts.flags
            (combine_ignore_extensions config opts.cli_ignore_extensions)
            env.shouldSkip env.dirNonEmpty).2
        = entries.length := by
  obtain ⟨ext, hm, hends⟩ := hext
  have hext4 : ext ∈ DEFAULT_IGNORE_EXTENSIONS ∧ normalize_extension ext = some ext := by
    fin_cases hm <;> exact ⟨by decide, by decide⟩
  have hcomb : ext ∈ combine_ignore_extensions config opts.cli_ignore_extensions := by
    unfold combine_ignore_extensions
    exact List.mem_append.mpr (Or.inl (List.mem_append.mpr (Or.inl hext4.1)))
  have hmatch : matches_extension e.path.name
      (combine_ignore_extensions config opts.cli_ignore_extensions) = true :=
    matches_extension_of_mem e.path.name ext ext _ hcomb hext4.2 hends
  constructor
  · intro p hp hsrc
    rw [run_tidy_plans] at hp
    obtain ⟨item, hit, hisrc⟩ := plan_moves_sources fs entries sourceDir _ _ opts.flags
      (combine_ignore_extensions config opts.cli_ignore_extensions)
      env.shouldSkip env.dirNonEmpty env.reference_time env.kindMap p hp
    obtain ⟨e', he', hpath, hdir, hign⟩ := iter_candidate_items_sound entries sourceDir
      opts.flags (combine_ignore_extensions config opts.cli_ignore_extensions)
      env.shouldSkip env.dirNonEmpty item hit
    have hee : e' = e := by
      have hpe : e'.path = e.path := by
        rw [← hpath, ← hisrc, hsrc]
      exact List.inj_on_of_nodup_map hnodup he' he hpe
    rw [hee, hfile] at hign
    rw [hign rfl] at hmatch
    cases hmatch
  · have hc := scanFold_count sourceDir opts.flags
      (combine_ignore_extensions config opts.cli_ignore_extensions)
      env.shouldSkip env.dirNonEmpty (List.insertionSort entryLE entries) ([], 0)
    have hlen : (List.insertionSort entryLE entries).length = entries.length :=
      (List.perm_insertionSort entryLE entries).length_eq
    unfold iter_candidate_items
    rw [hc, hlen]
    simp

/-- Witness for C8: in a run over `doc.pdf` and `video.mp4.part`, the single
plan entry does not touch the `.part` file. -/
theorem C8_witness :
    ({ source := ⟨["src"], "doc.pdf"⟩,
       destination := ⟨["dest", "Documents", "PDF"], "doc.pdf"⟩,
       rule_id := "pdf_documents", rule_description := "PDF Documents",
       collision_renamed := false } : MovePlan).source ≠ partEntry.path := by
  have h := C8_ignored_extension_files_never_planned ∅ [docPdfEntry, partEntry]
    ["src"] ["dest"] [pdfRule] {} dryOpts baseEnv partEntry
    (by decide) (by decide) rfl ⟨".part", by decide, by decide⟩
  exact h.1 _ (by decide)

/-- C5: undo replays the stored moves in reverse order, moving each recorded
destination back to its recorded source path (under record-scoped collision
resolution against the live filesystem); the record is stamped undone iff the
undo ran in apply mode with zero errors; and selecting an already-undone
record is an error that performs no moves and leaves the filesystem
untouched. -/
theorem C5_undo_reverse_replay_and_stamp (records : List TxRecord) (txId : Option String)
    (apply : Bool) (fs : Finset FsPath) (oracle : FsPath → FsPath → Bool) :
    (∀ target u, pick_transaction records txId = some target →
        target.undone_at = some u →
        run_undo records txId apply fs oracle
          = { exit_code := 2, result := {}, fs := fs, performed := [], stamped := false })
    ∧ (∀ target, pick_transaction records txId = some target →
        target.undone_at = none →
        ((run_undo records txId apply fs oracle).stamped = true
          ↔ apply = true ∧ (run_undo records txId apply fs oracle).result.errors = 0))
    ∧ (∀ target, pick_transaction records txId = some target →
        target.undone_at = none → apply = true →
        (∀ m ∈ target.moves, m.toPath ∈ fs) →
        (∀ m ∈ target.moves, m.fromPath ∉ fs) →
        (∀ m ∈ target.moves, oracle m.toPath m.fromPath = false) →
        ((target.moves.map (fun m => m.fromPath)).Nodup) →
        ((target.moves.map (fun m => m.toPath)).Nodup) →
        (run_undo records txId apply fs oracle).performed
            = target.moves.reverse.map (fun m => (m.toPath, m.fromPath))
          ∧ (run_undo records txId apply fs oracle).result.errors = 0
          ∧ (run_undo records txId apply fs oracle).result.restored = target.moves.length
          ∧ (run_undo records txId apply fs oracle).stamped = true) := by
  refine ⟨?_, ?_, ?_⟩
  · intro target u hpick hu
    simp only [run_undo, hpick, hu]
    rfl
  · intro target hpick hnone
    simp only [run_undo, hpick, hnone, Option.isSome_none, Bool.false_eq_true, if_false]
    simp [Bool.and_eq_true]
  · intro target hpick hnone happly hto hfrom hfail hndf hndt
    subst happly
    have hclean := undoFold_clean oracle target.moves.reverse
      { result := {}, fs := fs, occupied := ∅, performed := [] }
      (fun m hm => hto m (List.mem_reverse.mp hm))
      (fun m hm => hfrom m (List.mem_reverse.mp hm))
      (fun m hm h => absurd h (Finset.not_mem_empty _))
      (fun m hm => hfail m (List.mem_reverse.mp hm))
      (by rw [List.map_reverse]; exact List.nodup_reverse.mpr hndf)
      (by rw [List.map_reverse]; exact List.nodup_reverse.mpr hndt)
    obtain ⟨hp, herr, hres, _⟩ := hclean
    simp only [run_undo, hpick, hnone, Option.isSome_none, Bool.false_eq_true, if_false]
    simp only [undo_transaction]
    refine ⟨?_, ?_, ?_, ?_⟩
    · rw [hp]
      simp
    · exact herr
    · rw [hres]
      simp
    · rw [herr]
      rfl

/-- Witness for C5: undoing a fresh one-move record restores the recorded
destination to the recorded source. -/
theorem C5_witness :
    (run_undo [txFixture] none true
        {(⟨["dest", "Documents", "PDF"], "doc.pdf"⟩ : FsPath)}
        (fun _ _ => false)).performed
      = [(⟨["dest", "Documents", "PDF"], "doc.pdf"⟩, ⟨["src"], "doc.pdf"⟩)] := by
  have h := (C5_undo_reverse_replay_and_stamp [txFixture] none true
      {(⟨["dest", "Documents", "PDF"], "doc.pdf"⟩ : FsPath)} (fun _ _ => false)).2.2
    txFixture (by decide) rfl rfl
    (by intro m hm; fin_cases hm; decide)
    (by intro m hm; fin_cases hm; decide)
    (fun m hm => rfl)
    (by decide) (by decide)
  exact h.1.trans (by decide)

/-- C7: priority optimization keeps the enabled rules sorted by strictly
descending specificity score with ties broken by strictly increasing original
index (a stable sort), keeps every disabled rule at the end in original
relative order, and reorders an enabled one-extension rule before an
otherwise-equivalent enabled four-extension rule declared before it. -/
theorem C7_priority_optimization (rules : List Rule) :
    (optimize_rule_priority rules).1
        = (sortedScored rules).map (fun e => e.1) ++ rules.filter (fun r => !r.enabled)
    ∧ (sortedScored rules).Pairwise strictScoreOrder
    ∧ (sortedScored rules).Perm (enabledScored rules)
    ∧ (optimize_rule_priority [c7wide, c7narrow]).1 = [c7narrow, c7wide] :=
  ⟨rfl, sortedScored_pairwise_strict rules, sortedScored_perm rules, c7_example_order⟩

end FolderTidy
